import Mathlib

/-!
Shallow embedding of `python/dgl/graphbolt/feature_store.py`
(`TorchBasedFeatureStore`): a key-value store mapping string keys to
PyTorch tensors, with row-indexed `read` and `update`.

Modelling choices:
* A tensor is abstracted as a `List α` of its rows along dimension 0
  (the only dimension the code ever indexes); `α` is the type of one row.
* Python's dynamic typing is modelled by `PyValue` (tensor or any
  non-tensor object) and `PyKey` (string or non-string), so that the
  constructor's `isinstance` assertions and the absence of checks in
  `update(key, value, None)` can be stated faithfully.
* The Python `dict` is modelled as an association list with
  first-occurrence lookup and in-place replacement on assignment.
* Errors: the code's `assert` statements and the underlying torch
  indexing errors are mapped to the error taxonomy `FSError`
  (`keyNotFound`, `typeMismatch`, `shapeMismatch`, `indexOutOfBounds`);
  `typeError` stands for the Python `TypeError`/`AttributeError` raised
  when a non-tensor object is indexed or asked for its `.shape`.
* Torch advanced indexing `t[ids]` / `t[ids] = v` along dimension 0 is
  embedded as `gatherRows` / `scatterRows`: an integer index `i` into
  `n` rows is valid iff `-n ≤ i < n` and addresses row `i` (or `n + i`
  when negative); writes happen in the iteration order of `ids`.
* State is passed explicitly: `update` returns the new store in
  `Except`; an `.error` result means the store is unchanged (in the
  source every `assert` fires before any mutation).
-/

namespace GraphBolt

/-- A Python value as seen by the feature store: a torch tensor,
abstracted as its list of rows along dimension 0, or any other object. -/
inductive PyValue (α : Type) where
  | tensor (rows : List α)
  | nonTensor (tag : String)
deriving DecidableEq

/-- A Python dict key: a string, or any non-string object. -/
inductive PyKey where
  | str (s : String)
  | nonStr (tag : String)
deriving DecidableEq

/-- The error taxonomy of the feature store contract. -/
inductive FSError where
  | keyNotFound
  | typeMismatch
  | shapeMismatch
  | indexOutOfBounds
  | typeError
deriving DecidableEq

instance exceptDecEq {ε δ : Type} [DecidableEq ε] [DecidableEq δ] :
    DecidableEq (Except ε δ) := fun a b =>
  match a, b with
  | .error e₁, .error e₂ =>
      if h : e₁ = e₂ then isTrue (by rw [h]) else isFalse (by simp [h])
  | .error _, .ok _ => isFalse (by simp)
  | .ok _, .error _ => isFalse (by simp)
  | .ok v₁, .ok v₂ =>
      if h : v₁ = v₂ then isTrue (by rw [h]) else isFalse (by simp [h])

/-- `True` iff the value is a torch tensor. -/
def PyValue.isTensor {α : Type} : PyValue α → Bool
  | .tensor _ => true
  | .nonTensor _ => false

/-- `True` iff the key is a string. -/
def PyKey.isStr : PyKey → Bool
  | .str _ => true
  | .nonStr _ => false

/-- The state of a `TorchBasedFeatureStore`: its `_feature_dict`,
a Python dict from string keys to (arbitrary) Python values. -/
abbrev Store (α : Type) := List (String × PyValue α)

/-- Python dict lookup `d[k]` (first matching entry; keys are unique in
a real dict). -/
def dictGet {α : Type} : Store α → String → Option (PyValue α)
  | [], _ => none
  | (k', v) :: rest, k => if k' = k then some v else dictGet rest k

/-- Python dict assignment `d[k] = v`: replaces the value at an existing
key in place, appends a new entry otherwise. -/
def dictSet {α : Type} : Store α → String → PyValue α → Store α
  | [], k, v => [(k, v)]
  | (k', v') :: rest, k, v =>
      if k' = k then (k, v) :: rest else (k', v') :: dictSet rest k v

/-- Validity of integer index `i` into `n` rows, per torch semantics:
`-n ≤ i < n`. -/
abbrev idxOK (n : Nat) (i : Int) : Prop := -(n : Int) ≤ i ∧ i < (n : Int)

/-- The row addressed by index `i` (negative indices count from the
end), meaningful when `idxOK n i`. -/
def effIdx (n : Nat) (i : Int) : Nat :=
  if 0 ≤ i then i.toNat else (i + n).toNat

/-- Torch index normalization: the addressed row, or `none` when the
index is out of range. -/
def normIdx (n : Nat) (i : Int) : Option Nat :=
  if -(n : Int) ≤ i ∧ i < (n : Int) then some (effIdx n i) else none

/-- One element of torch advanced indexing: `rows[i]` with bounds check. -/
def torchGet {α : Type} (rows : List α) (i : Int) : Except FSError α :=
  match normIdx rows.length i with
  | none => .error .indexOutOfBounds
  | some j =>
      match rows[j]? with
      | some r => .ok r
      | none => .error .indexOutOfBounds

/-- Torch advanced indexing `t[ids]` along dimension 0: gathers the
addressed rows in order, failing on the first out-of-range index. -/
def gatherRows {α : Type} (rows : List α) : List Int → Except FSError (List α)
  | [] => .ok []
  | i :: is =>
      match torchGet rows i with
      | .error e => .error e
      | .ok r =>
          match gatherRows rows is with
          | .error e => .error e
          | .ok rs => .ok (r :: rs)

/-- Torch advanced-index assignment `t[ids] = v` along dimension 0:
writes `v`'s rows at the addressed rows in the iteration order of
`ids` (so on duplicate indices the last write wins), failing on an
out-of-range index. -/
def scatterRows {α : Type} : List α → List Int → List α → Except FSError (List α)
  | rows, [], _ => .ok rows
  | rows, _ :: _, [] => .ok rows
  | rows, i :: is, v :: vs =>
      match normIdx rows.length i with
      | none => .error .indexOutOfBounds
      | some j => scatterRows (rows.set j v) is vs

/-- The same scatter, stated the way the contract describes it: starting
from `rows`, for each position `p` in iteration order set row
`effIdx rows.length (ids.get p)` to `vals.get p` (last write wins). -/
def scatterSpec {α : Type} (rows : List α) (ids : List Int) (vals : List α) : List α :=
  (ids.zip vals).foldl (fun acc p => acc.set (effIdx acc.length p.1) p.2) rows

/-- `TorchBasedFeatureStore.__init__`'s validation loop over the entries
of `feature_dict`: every key must be a `str` and every value a
`torch.Tensor`, else an assertion (`TypeMismatch`) fires; on success the
dict itself becomes the store. -/
def initEntries {α : Type} : List (PyKey × PyValue α) → Except FSError (Store α)
  | [] => .ok []
  | (k, v) :: rest =>
      match k with
      | .nonStr _ => .error .typeMismatch
      | .str s =>
          match v with
          | .nonTensor _ => .error .typeMismatch
          | .tensor _ =>
              match initEntries rest with
              | .error e => .error e
              | .ok st => .ok ((s, v) :: st)

/-- The constructor argument: a Python dict, or any non-dict object. -/
inductive CtorArg (α : Type) where
  | dict (entries : List (PyKey × PyValue α))
  | nonDict (tag : String)

/-- `TorchBasedFeatureStore.__init__`: asserts the argument is a dict,
then validates every entry. -/
def initStore {α : Type} : CtorArg α → Except FSError (Store α)
  | .nonDict _ => .error .typeMismatch
  | .dict entries => initEntries entries

/-- `TorchBasedFeatureStore.read(key, ids)`: asserts the key is present,
returns the stored value itself when `ids is None`, and
`self._feature_dict[key][ids]` otherwise. -/
def read {α : Type} (s : Store α) (key : String) (ids : Option (List Int)) :
    Except FSError (PyValue α) :=
  match dictGet s key with
  | none => .error .keyNotFound
  | some v =>
      match ids with
      | none => .ok v
      | some idxs =>
          match v with
          | .tensor rows =>
              match gatherRows rows idxs with
              | .error e => .error e
              | .ok out => .ok (.tensor out)
          | .nonTensor _ => .error .typeError

/-- `TorchBasedFeatureStore.update(key, value, ids)`: asserts the key is
present; with `ids is None` rebinds the key to `value` (no validation);
otherwise asserts `ids.shape[0] == value.shape[0]` (evaluating
`value.shape` raises on a non-tensor) and performs
`self._feature_dict[key][ids] = value`. -/
def update {α : Type} (s : Store α) (key : String) (value : PyValue α)
    (ids : Option (List Int)) : Except FSError (Store α) :=
  match dictGet s key with
  | none => .error .keyNotFound
  | some stored =>
      match ids with
      | none => .ok (dictSet s key value)
      | some idxs =>
          match value with
          | .nonTensor _ => .error .typeError
          | .tensor vrows =>
              if idxs.length = vrows.length then
                match stored with
                | .nonTensor _ => .error .typeError
                | .tensor rows =>
                    match scatterRows rows idxs vrows with
                    | .error e => .error e
                    | .ok rows' => .ok (dictSet s key (.tensor rows'))
              else .error .shapeMismatch

/-! ## Helper lemmas about the dict model -/

theorem dictGet_dictSet_self {α : Type} (s : Store α) (k : String) (v : PyValue α) :
    dictGet (dictSet s k v) k = some v := by
  induction s with
  | nil => simp [dictSet, dictGet]
  | cons kv rest ih =>
      obtain ⟨k', v'⟩ := kv
      by_cases h : k' = k
      · simp [dictSet, dictGet, h]
      · simp [dictSet, dictGet, h, ih]

theorem dictGet_dictSet_ne {α : Type} (s : Store α) (k k' : String) (v : PyValue α)
    (h : k' ≠ k) : dictGet (dictSet s k v) k' = dictGet s k' := by
  induction s with
  | nil => simp [dictSet, dictGet, Ne.symm h]
  | cons kv rest ih =>
      obtain ⟨k₀, v₀⟩ := kv
      by_cases hk : k₀ = k
      · subst hk
        simp [dictSet, dictGet, Ne.symm h]
      · simp [dictSet, dictGet, hk, ih]

theorem dictSet_map_fst {α : Type} (s : Store α) (k : String) (v : PyValue α)
    (h : (dictGet s k).isSome) :
    (dictSet s k v).map Prod.fst = s.map Prod.fst := by
  induction s with
  | nil => simp [dictGet] at h
  | cons kv rest ih =>
      obtain ⟨k₀, v₀⟩ := kv
      by_cases hk : k₀ = k
      · subst hk
        simp [dictSet]
      · simp [dictGet, hk] at h
        simp [dictSet, hk, ih h]

/-! ## Helper lemmas about torch index normalization -/

theorem effIdx_lt {n : Nat} {i : Int} (h : idxOK n i) : effIdx n i < n := by
  unfold effIdx
  split <;> omega

theorem normIdx_eq_some {n : Nat} {i : Int} (h : idxOK n i) :
    normIdx n i = some (effIdx n i) := by
  simp [normIdx, h.1, h.2]

theorem normIdx_eq_none {n : Nat} {i : Int} (h : ¬ idxOK n i) :
    normIdx n i = none := by
  unfold normIdx
  rw [if_neg h]

theorem normIdx_some_inv {n : Nat} {i : Int} {j : Nat} (h : normIdx n i = some j) :
    j = effIdx n i ∧ idxOK n i := by
  unfold normIdx at h
  split at h
  · exact ⟨(Option.some_inj.mp h).symm, by assumption⟩
  · exact absurd h (by simp)

theorem torchGet_ok {α : Type} {rows : List α} {i : Int} (h : idxOK rows.length i) :
    torchGet rows i = .ok (rows.get ⟨effIdx rows.length i, effIdx_lt h⟩) := by
  unfold torchGet
  rw [normIdx_eq_some h]
  simp [List.getElem?_eq_getElem (effIdx_lt h)]

theorem torchGet_err {α : Type} {rows : List α} {i : Int} (h : ¬ idxOK rows.length i) :
    torchGet rows i = .error .indexOutOfBounds := by
  unfold torchGet
  rw [normIdx_eq_none h]

theorem torchGet_error_eq {α : Type} {rows : List α} {i : Int} {e : FSError}
    (h : torchGet rows i = .error e) : e = .indexOutOfBounds := by
  unfold torchGet at h
  split at h
  · injection h with h'
    exact h'.symm
  · split at h
    · exact absurd h (by simp)
    · injection h with h'
      exact h'.symm

/-! ## Helper lemmas about gather (`t[ids]`) -/

theorem gatherRows_ok {α : Type} {rows : List α} {ids : List Int}
    (h : ∀ i ∈ ids, idxOK rows.length i) :
    ∃ out, gatherRows rows ids = .ok out ∧ out.length = ids.length ∧
      ∀ p, p < ids.length → out[p]? = rows[effIdx rows.length (ids.getD p 0)]? := by
  induction ids with
  | nil => exact ⟨[], rfl, rfl, fun p hp => absurd hp (by simp)⟩
  | cons i is ih =>
      have hi : idxOK rows.length i := h i (by simp)
      obtain ⟨out, hout, hlen, hpt⟩ := ih (fun j hj => h j (by simp [hj]))
      refine ⟨rows.get ⟨effIdx rows.length i, effIdx_lt hi⟩ :: out, ?_, ?_, ?_⟩
      · simp [gatherRows, torchGet_ok hi, hout]
      · simp [hlen]
      · intro p hp
        cases p with
        | zero => simp [List.getElem?_eq_getElem (effIdx_lt hi)]
        | succ q => simpa using hpt q (by simpa using hp)

theorem gatherRows_err {α : Type} {rows : List α} {ids : List Int}
    (h : ∃ i ∈ ids, ¬ idxOK rows.length i) :
    gatherRows rows ids = .error .indexOutOfBounds := by
  induction ids with
  | nil => simp at h
  | cons i is ih =>
      by_cases hi : idxOK rows.length i
      · have htail : ∃ j ∈ is, ¬ idxOK rows.length j := by
          obtain ⟨j, hj, hbad⟩ := h
          rcases List.mem_cons.mp hj with rfl | hj'
          · exact absurd hi hbad
          · exact ⟨j, hj', hbad⟩
        simp [gatherRows, torchGet_ok hi, ih htail]
      · simp [gatherRows, torchGet_err hi]

theorem gatherRows_error_eq {α : Type} {rows : List α} {ids : List Int} {e : FSError}
    (h : gatherRows rows ids = .error e) : e = .indexOutOfBounds := by
  induction ids with
  | nil => exact absurd h (by simp [gatherRows])
  | cons i is ih =>
      unfold gatherRows at h
      cases htg : torchGet rows i with
      | error e' =>
          rw [htg] at h
          injection h with h'
          exact h' ▸ torchGet_error_eq htg
      | ok r =>
          rw [htg] at h
          cases hg : gatherRows rows is with
          | error e' =>
              rw [hg] at h
              injection h with h'
              subst h'
              exact ih hg
          | ok out =>
              rw [hg] at h
              exact absurd h (by simp)

/-! ## Helper lemmas about scatter (`t[ids] = v`) -/

theorem scatterRows_ok_eq_spec {α : Type} {ids : List Int} :
    ∀ (rows vals : List α), (∀ i ∈ ids, idxOK rows.length i) →
    ids.length = vals.length →
    scatterRows rows ids vals = .ok (scatterSpec rows ids vals) := by
  induction ids with
  | nil =>
      intro rows vals _ hlen
      cases vals with
      | nil => simp [scatterRows, scatterSpec]
      | cons v vs => simp at hlen
  | cons i is ih =>
      intro rows vals h hlen
      cases vals with
      | nil => simp at hlen
      | cons v vs =>
          have hi : idxOK rows.length i := h i (by simp)
          have hstep : scatterRows rows (i :: is) (v :: vs)
              = scatterRows (rows.set (effIdx rows.length i) v) is vs := by
            simp [scatterRows, normIdx_eq_some hi]
          rw [hstep]
          have h' : ∀ j ∈ is, idxOK (rows.set (effIdx rows.length i) v).length j := by
            intro j hj
            rw [List.length_set]
            exact h j (by simp [hj])
          rw [ih _ _ h' (by simpa using hlen)]
          simp [scatterSpec]

theorem scatterRows_ok_length {α : Type} {ids : List Int} :
    ∀ (rows vals rows' : List α),
    scatterRows rows ids vals = .ok rows' → rows'.length = rows.length := by
  induction ids with
  | nil =>
      intro rows vals rows' h
      simp [scatterRows] at h
      simp [h]
  | cons i is ih =>
      intro rows vals rows' h
      cases vals with
      | nil =>
          simp [scatterRows] at h
          simp [h]
      | cons v vs =>
          simp only [scatterRows] at h
          cases hn : normIdx rows.length i with
          | none => rw [hn] at h; exact absurd h (by simp)
          | some j =>
              rw [hn] at h
              rw [ih _ _ _ h, List.length_set]

theorem scatterRows_error_eq {α : Type} {ids : List Int} :
    ∀ (rows vals : List α) (e : FSError),
    scatterRows rows ids vals = .error e → e = .indexOutOfBounds := by
  induction ids with
  | nil =>
      intro rows vals e h
      simp [scatterRows] at h
  | cons i is ih =>
      intro rows vals e h
      cases vals with
      | nil => simp [scatterRows] at h
      | cons v vs =>
          simp only [scatterRows] at h
          cases hn : normIdx rows.length i with
          | none =>
              rw [hn] at h
              injection h with h'
              exact h'.symm
          | some j =>
              rw [hn] at h
              exact ih _ _ _ h

theorem scatterRows_frame {α : Type} {ids : List Int} :
    ∀ (rows vals rows' : List α), scatterRows rows ids vals = .ok rows' →
    ∀ j : Nat, (∀ i ∈ ids, effIdx rows.length i ≠ j) → rows'[j]? = rows[j]? := by
  induction ids with
  | nil =>
      intro rows vals rows' h j _
      simp [scatterRows] at h
      simp [h]
  | cons i is ih =>
      intro rows vals rows' h j hj
      cases vals with
      | nil =>
          simp [scatterRows] at h
          simp [h]
      | cons v vs =>
          simp only [scatterRows] at h
          cases hn : normIdx rows.length i with
          | none => rw [hn] at h; exact absurd h (by simp)
          | some j0 =>
              rw [hn] at h
              obtain ⟨hj0, _⟩ := normIdx_some_inv hn
              have hne : j0 ≠ j := hj0 ▸ hj i (by simp)
              have htail : ∀ i' ∈ is,
                  effIdx (rows.set j0 v).length i' ≠ j := by
                intro i' hi'
                rw [List.length_set]
                exact hj i' (by simp [hi'])
              rw [ih _ _ _ h j htail, List.getElem?_set_ne hne]

theorem scatterSpec_length {α : Type} {ids : List Int} :
    ∀ (rows vals : List α), (scatterSpec rows ids vals).length = rows.length := by
  induction ids with
  | nil => intro rows vals; simp [scatterSpec]
  | cons i is ih =>
      intro rows vals
      cases vals with
      | nil => simp [scatterSpec]
      | cons v vs =>
          have : scatterSpec rows (i :: is) (v :: vs)
              = scatterSpec (rows.set (effIdx rows.length i) v) is vs := by
            simp [scatterSpec]
          rw [this, ih, List.length_set]

theorem scatterSpec_getElem {α : Type} {ids : List Int} :
    ∀ (rows vals : List α) (j : Nat), j < rows.length →
    (scatterSpec rows ids vals)[j]? =
      ((ids.zip vals).reverse.find? (fun p => effIdx rows.length p.1 == j)).elim
        rows[j]? (fun p => some p.2) := by
  induction ids with
  | nil => intro rows vals j _; simp [scatterSpec]
  | cons i is ih =>
      intro rows vals j hj
      cases vals with
      | nil => simp [scatterSpec]
      | cons v vs =>
          have hstep : scatterSpec rows (i :: is) (v :: vs)
              = scatterSpec (rows.set (effIdx rows.length i) v) is vs := by
            simp [scatterSpec]
          have hlen : (rows.set (effIdx rows.length i) v).length = rows.length :=
            List.length_set ..
          rw [hstep, ih _ _ j (by rw [hlen]; exact hj), hlen]
          rw [List.zip_cons_cons, List.reverse_cons, List.find?_append]
          cases hfind : (is.zip vs).reverse.find? (fun p => effIdx rows.length p.1 == j) with
          | some p => simp [hfind]
          | none =>
              simp only [hfind, Option.none_or]
              by_cases hij : effIdx rows.length i = j
              · have hbeq : (effIdx rows.length i == j) = true := by simp [hij]
                simp [List.find?, hbeq, List.getElem?_set, hij, hj]
              · have hbeq : (effIdx rows.length i == j) = false := by simp [hij]
                simp [List.find?, hbeq, List.getElem?_set_ne hij]

/-- After scattering `vals` at pairwise-distinct in-range indices,
gathering at the same indices reads `vals` back. -/
theorem scatter_then_gather {α : Type} {ids : List Int} :
    ∀ (rows vals : List α),
    (∀ i ∈ ids, idxOK rows.length i) →
    ids.Pairwise (fun a b => effIdx rows.length a ≠ effIdx rows.length b) →
    ids.length = vals.length →
    ∃ rows', scatterRows rows ids vals = .ok rows' ∧
      gatherRows rows' ids = .ok vals := by
  induction ids with
  | nil =>
      intro rows vals _ _ hlen
      cases vals with
      | nil => exact ⟨rows, rfl, rfl⟩
      | cons v vs => simp at hlen
  | cons i is ih =>
      intro rows vals h hpw hlen
      cases vals with
      | nil => simp at hlen
      | cons v vs =>
          have hi : idxOK rows.length i := h i (by simp)
          have hstep : scatterRows rows (i :: is) (v :: vs)
              = scatterRows (rows.set (effIdx rows.length i) v) is vs := by
            simp [scatterRows, normIdx_eq_some hi]
          have hset : (rows.set (effIdx rows.length i) v).length = rows.length :=
            List.length_set ..
          obtain ⟨hhd, hpw'⟩ := List.pairwise_cons.mp hpw
          obtain ⟨rows', hsc, hg⟩ := ih (rows.set (effIdx rows.length i) v) vs
            (fun j hj => by rw [hset]; exact h j (by simp [hj]))
            (by simp only [hset]; exact hpw')
            (by simpa using hlen)
          have hlenr : rows'.length = rows.length := by
            rw [scatterRows_ok_length _ _ _ hsc, hset]
          have hframe : rows'[effIdx rows.length i]? = some v := by
            have huntouched : ∀ i' ∈ is,
                effIdx (rows.set (effIdx rows.length i) v).length i'
                  ≠ effIdx rows.length i := by
              intro i' hi'
              rw [hset]
              exact (hhd i' hi').symm
            rw [scatterRows_frame _ _ _ hsc (effIdx rows.length i) huntouched,
              List.getElem?_set, if_pos rfl, if_pos (effIdx_lt hi)]
          have htg : torchGet rows' i = .ok v := by
            unfold torchGet
            rw [hlenr, normIdx_eq_some hi]
            simp [hframe]
          refine ⟨rows', by rw [hstep]; exact hsc, ?_⟩
          simp [gatherRows, htg, hg]

/-! ## Helper lemmas about the constructor -/

theorem initEntries_ok_iff {α : Type} (entries : List (PyKey × PyValue α)) :
    (∃ st, initEntries entries = .ok st) ↔
      ∀ kv ∈ entries, kv.1.isStr = true ∧ kv.2.isTensor = true := by
  induction entries with
  | nil => simp [initEntries]
  | cons kv rest ih =>
      obtain ⟨k, v⟩ := kv
      cases k with
      | nonStr t => simp [initEntries, PyKey.isStr]
      | str s =>
          cases v with
          | nonTensor t => simp [initEntries, PyKey.isStr, PyValue.isTensor]
          | tensor rows =>
              constructor
              · rintro ⟨st, hst⟩
                simp only [initEntries] at hst
                cases hrest : initEntries rest with
                | error e => rw [hrest] at hst; exact absurd hst (by simp)
                | ok st' =>
                    intro kv' hkv'
                    rcases List.mem_cons.mp hkv' with rfl | h'
                    · exact ⟨rfl, rfl⟩
                    · exact (ih.mp ⟨st', hrest⟩) kv' h'
              · intro hall
                obtain ⟨st', hst'⟩ := ih.mpr (fun kv' h' => hall kv' (by simp [h']))
                exact ⟨(s, .tensor rows) :: st', by simp [initEntries, hst']⟩

theorem initEntries_error_eq {α : Type} {entries : List (PyKey × PyValue α)}
    {e : FSError} (h : initEntries entries = .error e) : e = .typeMismatch := by
  induction entries with
  | nil => simp [initEntries] at h
  | cons kv rest ih =>
      obtain ⟨k, v⟩ := kv
      cases k with
      | nonStr t =>
          simp only [initEntries] at h
          injection h with h'
          exact h'.symm
      | str s =>
          cases v with
          | nonTensor t =>
              simp only [initEntries] at h
              injection h with h'
              exact h'.symm
          | tensor rows =>
              simp only [initEntries] at h
              cases hrest : initEntries rest with
              | error e' =>
                  rw [hrest] at h
                  injection h with h'
                  subst h'
                  exact ih hrest
              | ok st => rw [hrest] at h; exact absurd h (by simp)

theorem initEntries_ok_values_tensor {α : Type} {entries : List (PyKey × PyValue α)} :
    ∀ {st : Store α}, initEntries entries = .ok st →
    ∀ kv ∈ st, kv.2.isTensor = true := by
  induction entries with
  | nil =>
      intro st h
      simp only [initEntries] at h
      injection h with h'
      subst h'
      simp
  | cons kv rest ih =>
      intro st h
      obtain ⟨k, v⟩ := kv
      cases k with
      | nonStr t => exact absurd h (by simp [initEntries])
      | str s =>
          cases v with
          | nonTensor t => exact absurd h (by simp [initEntries])
          | tensor rows =>
              simp only [initEntries] at h
              cases hrest : initEntries rest with
              | error e => rw [hrest] at h; exact absurd h (by simp)
              | ok st' =>
                  rw [hrest] at h
                  injection h with h'
                  subst h'
                  intro kv' hkv'
                  rcases List.mem_cons.mp hkv' with rfl | h'
                  · rfl
                  · exact ih hrest kv' h'

/-! ## Claim theorems -/

/-- Claim C1: for every store, every key `k` present in the mapping, and every
in-range 1-D index list `i`, `read(k, i)` returns a newly constructed array
whose rows equal, element-wise and in the order of `i`, the rows of the full
array `read(k, none)` at those indices; duplicate indices are allowed and
yield the corresponding row repeated. -/
theorem C1_indexed_read_matches_full {α : Type} (s : Store α) (k : String)
    (rows : List α) (ids : List Int)
    (hk : dictGet s k = some (.tensor rows))
    (hin : ∀ i ∈ ids, idxOK rows.length i) :
    read s k none = .ok (.tensor rows) ∧
    ∃ out, read s k (some ids) = .ok (.tensor out) ∧
      out.length = ids.length ∧
      ∀ p, p < ids.length →
        out[p]? = rows[effIdx rows.length (ids.getD p 0)]? := by
  obtain ⟨out, hout, hlen, hpt⟩ := gatherRows_ok hin
  refine ⟨by simp [read, hk], out, ?_, hlen, hpt⟩
  simp [read, hk, hout]

theorem C1_witness :
    (dictGet [("user", PyValue.tensor [(10 : Int), 20, 30])] "user"
      = some (.tensor [(10 : Int), 20, 30])) ∧
    (∀ i ∈ [(0 : Int), 2, 2, -1], idxOK 3 i) ∧
    (read [("user", PyValue.tensor [(10 : Int), 20, 30])] "user" none
      = .ok (.tensor [(10 : Int), 20, 30]) ∧
    ∃ out,
      read [("user", PyValue.tensor [(10 : Int), 20, 30])] "user"
          (some [(0 : Int), 2, 2, -1]) = .ok (.tensor out) ∧
      out.length = [(0 : Int), 2, 2, -1].length ∧
      ∀ p, p < [(0 : Int), 2, 2, -1].length →
        out[p]? = [(10 : Int), 20, 30][effIdx 3 ([(0 : Int), 2, 2, -1].getD p 0)]?) :=
  ⟨by decide, by decide,
    C1_indexed_read_matches_full _ "user" _ _ (by decide) (by decide)⟩

/-- Claim C2: for every store, key `k` present in the mapping, index list
`ids` (in range), and value of equal length along the row dimension,
`update(k, value, ids)` overwrites row `ids[i]` with row `i` of `value`;
on duplicate indices the last write in the iteration order of `ids` wins,
and the array stored under `k` after the call equals exactly this scatter
result. -/
theorem C2_indexed_update_is_scatter {α : Type} (s : Store α) (k : String)
    (rows : List α) (ids : List Int) (vrows : List α)
    (hk : dictGet s k = some (.tensor rows))
    (hin : ∀ i ∈ ids, idxOK rows.length i)
    (hlen : ids.length = vrows.length) :
    update s k (.tensor vrows) (some ids)
      = .ok (dictSet s k (.tensor (scatterSpec rows ids vrows))) ∧
    dictGet (dictSet s k (.tensor (scatterSpec rows ids vrows))) k
      = some (.tensor (scatterSpec rows ids vrows)) ∧
    ∀ j, j < rows.length →
      (scatterSpec rows ids vrows)[j]? =
        ((ids.zip vrows).reverse.find?
            (fun p => effIdx rows.length p.1 == j)).elim
          rows[j]? (fun p => some p.2) := by
  refine ⟨?_, dictGet_dictSet_self .., fun j hj => scatterSpec_getElem _ _ j hj⟩
  simp [update, hk, hlen, scatterRows_ok_eq_spec _ _ hin hlen]

theorem C2_witness :
    (dictGet [("a", PyValue.tensor [(10 : Int), 20, 30])] "a"
      = some (.tensor [(10 : Int), 20, 30])) ∧
    (∀ i ∈ [(0 : Int), 0, 2], idxOK 3 i) ∧
    ([(0 : Int), 0, 2].length = [(1 : Int), 2, 3].length) ∧
    (update [("a", PyValue.tensor [(10 : Int), 20, 30])] "a"
        (.tensor [(1 : Int), 2, 3]) (some [(0 : Int), 0, 2])
      = .ok (dictSet [("a", PyValue.tensor [(10 : Int), 20, 30])] "a"
          (.tensor (scatterSpec [(10 : Int), 20, 30] [(0 : Int), 0, 2]
            [(1 : Int), 2, 3]))) ∧
    dictGet (dictSet [("a", PyValue.tensor [(10 : Int), 20, 30])] "a"
        (.tensor (scatterSpec [(10 : Int), 20, 30] [(0 : Int), 0, 2]
          [(1 : Int), 2, 3]))) "a"
      = some (.tensor (scatterSpec [(10 : Int), 20, 30] [(0 : Int), 0, 2]
          [(1 : Int), 2, 3])) ∧
    ∀ j, j < [(10 : Int), 20, 30].length →
      (scatterSpec [(10 : Int), 20, 30] [(0 : Int), 0, 2] [(1 : Int), 2, 3])[j]? =
        (([(0 : Int), 0, 2].zip [(1 : Int), 2, 3]).reverse.find?
            (fun p => effIdx [(10 : Int), 20, 30].length p.1 == j)).elim
          [(10 : Int), 20, 30][j]? (fun p => some p.2)) :=
  ⟨by decide, by decide, by decide,
    C2_indexed_update_is_scatter _ "a" _ _ _ (by decide) (by decide) (by decide)⟩

/-- Claim C4: for every store, key `k` present in the mapping, and array
value `v` of any shape (the shape need not match the previous value's),
`update(k, v)` with ids omitted replaces the entire array stored under `k`
with `v`, and a subsequent `read(k, none)` returns exactly `v`. -/
theorem C4_full_update_roundtrip {α : Type} (s : Store α) (k : String)
    (vrows : List α) (hk : (dictGet s k).isSome) :
    update s k (.tensor vrows) none = .ok (dictSet s k (.tensor vrows)) ∧
    read (dictSet s k (.tensor vrows)) k none = .ok (.tensor vrows) := by
  obtain ⟨w, hw⟩ := Option.isSome_iff_exists.mp hk
  exact ⟨by simp [update, hw], by simp [read, dictGet_dictSet_self]⟩

theorem C4_witness :
    ((dictGet [("user", PyValue.tensor [(1 : Int)])] "user").isSome) ∧
    (update [("user", PyValue.tensor [(1 : Int)])] "user"
        (.tensor [(5 : Int), 6, 7]) none
      = .ok (dictSet [("user", PyValue.tensor [(1 : Int)])] "user"
          (.tensor [(5 : Int), 6, 7])) ∧
    read (dictSet [("user", PyValue.tensor [(1 : Int)])] "user"
        (.tensor [(5 : Int), 6, 7])) "user" none
      = .ok (.tensor [(5 : Int), 6, 7])) :=
  ⟨by decide, C4_full_update_roundtrip _ "user" _ (by decide)⟩

/-- Claim C5: `read(k, ids)` and `update(k, value, ids)` fail with a
`KeyNotFound` error exactly when `k` is absent from the mapping; when `k`
is present neither operation ever fails with that error. -/
theorem C5_keyNotFound_iff {α : Type} (s : Store α) (k : String)
    (v : PyValue α) (ids : Option (List Int)) :
    (read s k ids = .error .keyNotFound ↔ dictGet s k = none) ∧
    (update s k v ids = .error .keyNotFound ↔ dictGet s k = none) := by
  cases hk : dictGet s k with
  | none =>
      refine ⟨⟨fun _ => rfl, fun _ => ?_⟩, ⟨fun _ => rfl, fun _ => ?_⟩⟩
      · cases ids <;> simp [read, hk]
      · cases ids <;> simp [update, hk]
  | some w =>
      have hread : read s k ids ≠ .error .keyNotFound := by
        simp only [read, hk]
        cases ids with
        | none => simp
        | some idxs =>
            cases w with
            | nonTensor t => simp
            | tensor rows =>
                cases hg : gatherRows rows idxs with
                | ok out => simp [hg]
                | error e =>
                    have he := gatherRows_error_eq hg
                    subst he
                    simp [hg]
      have hupd : update s k v ids ≠ .error .keyNotFound := by
        simp only [update, hk]
        cases ids with
        | none => simp
        | some idxs =>
            cases v with
            | nonTensor t => simp
            | tensor vrows =>
                by_cases hlen : idxs.length = vrows.length
                · simp only [if_pos hlen]
                  cases w with
                  | nonTensor t => simp
                  | tensor rows =>
                      cases hs : scatterRows rows idxs vrows with
                      | ok r => simp [hs]
                      | error e =>
                          have he := scatterRows_error_eq _ _ _ hs
                          subst he
                          simp [hs]
                · simp [if_neg hlen]
      exact ⟨⟨fun h => absurd h hread, fun hn => absurd hn (by simp)⟩,
        ⟨fun h => absurd h hupd, fun hn => absurd hn (by simp)⟩⟩

/-- Claim C6: `update(k, value, ids)` with `k` present and the length of
`ids` different from the length of `value` along the row dimension fails
with a `ShapeMismatch` error. In this embedding `update` returns the new
store on success; an `.error` result carries no store, which models the
source behaviour of the assertion firing before any mutation, so the store
and its key set are unchanged. -/
theorem C6_shape_mismatch {α : Type} (s : Store α) (k : String) (w : PyValue α)
    (ids : List Int) (vrows : List α)
    (hk : dictGet s k = some w) (hlen : ids.length ≠ vrows.length) :
    update s k (.tensor vrows) (some ids) = .error .shapeMismatch := by
  simp [update, hk, hlen]

theorem C6_witness :
    (dictGet [("a", PyValue.tensor [(1 : Int), 2])] "a"
      = some (.tensor [(1 : Int), 2])) ∧
    ([(0 : Int)].length ≠ [(7 : Int), 8].length) ∧
    update [("a", PyValue.tensor [(1 : Int), 2])] "a"
        (.tensor [(7 : Int), 8]) (some [(0 : Int)])
      = .error .shapeMismatch :=
  ⟨by decide, by decide,
    C6_shape_mismatch _ "a" (PyValue.tensor [(1 : Int), 2]) [(0 : Int)]
      [(7 : Int), 8] (by decide) (by decide)⟩

/-- Claim C7: construction fails with a `TypeMismatch` error when the
argument is not a dict, or some key is not a string, or some value is not
a tensor; it succeeds exactly when the argument is a dict all of whose
keys are strings and all of whose values are tensors (and `TypeMismatch`
is the only construction-time failure). -/
theorem C7_ctor_validation {α : Type} (tag : String)
    (entries : List (PyKey × PyValue α)) :
    initStore (α := α) (.nonDict tag) = .error .typeMismatch ∧
    ((∃ st, initStore (.dict entries) = .ok st) ↔
      ∀ kv ∈ entries, kv.1.isStr = true ∧ kv.2.isTensor = true) ∧
    (initStore (.dict entries) = .error .typeMismatch ∨
      ∃ st, initStore (.dict entries) = .ok st) := by
  refine ⟨rfl, initEntries_ok_iff entries, ?_⟩
  cases h : initEntries entries with
  | error e =>
      exact Or.inl (by simp only [initStore]; rw [h, initEntries_error_eq h])
  | ok st => exact Or.inr ⟨st, h⟩

/-- Claim C8: `read(k, i)` with `k` present and `i` containing at least one
index out of range for the first dimension of the stored array fails with
an `IndexOutOfBounds` error. -/
theorem C8_read_out_of_bounds {α : Type} (s : Store α) (k : String)
    (rows : List α) (ids : List Int)
    (hk : dictGet s k = some (.tensor rows))
    (hbad : ∃ i ∈ ids, ¬ idxOK rows.length i) :
    read s k (some ids) = .error .indexOutOfBounds := by
  simp [read, hk, gatherRows_err hbad]

theorem C8_witness :
    (dictGet [("a", PyValue.tensor [(10 : Int), 20])] "a"
      = some (.tensor [(10 : Int), 20])) ∧
    (∃ i ∈ [(0 : Int), 5], ¬ idxOK 2 i) ∧
    read [("a", PyValue.tensor [(10 : Int), 20])] "a" (some [(0 : Int), 5])
      = .error .indexOutOfBounds :=
  ⟨by decide, by decide,
    C8_read_out_of_bounds _ "a" [(10 : Int), 20] [(0 : Int), 5]
      (by decide) (by decide)⟩

/-- Claim C9: every successful update is framed: an indexed update leaves
every row of the stored array whose index does not occur in `ids`
unchanged; every other key's value and the whole key set are unchanged.
(`read` in the source performs no assignment, which this pure embedding
reflects by returning no store at all.) -/
theorem C9_update_frame {α : Type} (s : Store α) (k : String) (v : PyValue α)
    (ids : Option (List Int)) (s' : Store α)
    (h : update s k v ids = .ok s') :
    (∀ k', k' ≠ k → dictGet s' k' = dictGet s k') ∧
    s'.map Prod.fst = s.map Prod.fst ∧
    (∀ idxs rows vrows, ids = some idxs → v = .tensor vrows →
      dictGet s k = some (.tensor rows) →
      ∃ rows', dictGet s' k = some (.tensor rows') ∧
        rows'.length = rows.length ∧
        ∀ j, (∀ i ∈ idxs, effIdx rows.length i ≠ j) → rows'[j]? = rows[j]?) := by
  cases hk : dictGet s k with
  | none =>
      have hfail : update s k v ids = .error .keyNotFound := by
        cases ids <;> simp [update, hk]
      rw [hfail] at h
      exact absurd h (by simp)
  | some w =>
      have hkSome : (dictGet s k).isSome := by simp [hk]
      cases ids with
      | none =>
          have hcomp : update s k v none = .ok (dictSet s k v) := by
            simp [update, hk]
          rw [hcomp] at h
          injection h with h'
          subst h'
          refine ⟨fun k' hne => dictGet_dictSet_ne s k k' v hne,
            dictSet_map_fst s k v hkSome, ?_⟩
          intro idxs rows vrows hids _ _
          exact absurd hids (by simp)
      | some idxs =>
          cases v with
          | nonTensor t =>
              have hfail : update s k (.nonTensor t) (some idxs)
                  = .error .typeError := by
                simp [update, hk]
              rw [hfail] at h
              exact absurd h (by simp)
          | tensor vrows =>
              by_cases hlen : idxs.length = vrows.length
              · cases w with
                | nonTensor t =>
                    have hfail : update s k (.tensor vrows) (some idxs)
                        = .error .typeError := by
                      simp [update, hk, hlen]
                    rw [hfail] at h
                    exact absurd h (by simp)
                | tensor rows0 =>
                    cases hs : scatterRows rows0 idxs vrows with
                    | error e =>
                        have hfail : update s k (.tensor vrows) (some idxs)
                            = .error e := by
                          simp [update, hk, hlen, hs]
                        rw [hfail] at h
                        exact absurd h (by simp)
                    | ok rowsN =>
                        have hcomp : update s k (.tensor vrows) (some idxs)
                            = .ok (dictSet s k (.tensor rowsN)) := by
                          simp [update, hk, hlen, hs]
                        rw [hcomp] at h
                        injection h with h'
                        subst h'
                        refine ⟨fun k' hne => dictGet_dictSet_ne s k k' _ hne,
                          dictSet_map_fst s k _ hkSome, ?_⟩
                        intro idxs' rows vrows' hids hv hrows
                        injection hids with hids'
                        subst hids'
                        injection hv with hv'
                        subst hv'
                        injection hrows with hrows'
                        injection hrows' with hrows''
                        subst hrows''
                        exact ⟨rowsN, dictGet_dictSet_self ..,
                          scatterRows_ok_length _ _ _ hs,
                          fun j hj => scatterRows_frame _ _ _ hs j hj⟩
              · have hfail : update s k (.tensor vrows) (some idxs)
                    = .error .shapeMismatch := by
                  simp [update, hk, hlen]
                rw [hfail] at h
                exact absurd h (by simp)

theorem C9_witness :
    (update [("a", PyValue.tensor [(10 : Int), 20, 30]),
        ("b", PyValue.tensor [(7 : Int)])] "a"
      (.tensor [(1 : Int), 2]) (some [(0 : Int), 2])
      = .ok [("a", PyValue.tensor [(1 : Int), 20, 2]),
          ("b", PyValue.tensor [(7 : Int)])]) ∧
    ((∀ k', k' ≠ "a" →
      dictGet [("a", PyValue.tensor [(1 : Int), 20, 2]),
          ("b", PyValue.tensor [(7 : Int)])] k'
        = dictGet [("a", PyValue.tensor [(10 : Int), 20, 30]),
            ("b", PyValue.tensor [(7 : Int)])] k') ∧
    ([("a", PyValue.tensor [(1 : Int), 20, 2]),
        ("b", PyValue.tensor [(7 : Int)])].map Prod.fst
      = [("a", PyValue.tensor [(10 : Int), 20, 30]),
          ("b", PyValue.tensor [(7 : Int)])].map Prod.fst) ∧
    (∀ idxs rows vrows, (some [(0 : Int), 2] : Option (List Int)) = some idxs →
      (PyValue.tensor [(1 : Int), 2] : PyValue Int) = .tensor vrows →
      dictGet [("a", PyValue.tensor [(10 : Int), 20, 30]),
          ("b", PyValue.tensor [(7 : Int)])] "a" = some (.tensor rows) →
      ∃ rows', dictGet [("a", PyValue.tensor [(1 : Int), 20, 2]),
          ("b", PyValue.tensor [(7 : Int)])] "a" = some (.tensor rows') ∧
        rows'.length = rows.length ∧
        ∀ j, (∀ i ∈ idxs, effIdx rows.length i ≠ j) →
          rows'[j]? = rows[j]?)) :=
  ⟨by decide, C9_update_frame _ "a" _ _ _ (by decide)⟩

/-- Claim C10: the constructor's typing invariant (every stored value is a
tensor) is not preserved by `update`: construction only ever stores
tensors, yet for any existing key `k` and non-tensor value `v`,
`update(k, v)` with ids omitted succeeds without validating `v` and stores
it, so a later `read(k, none)` returns the non-tensor value. -/
theorem C10_update_breaks_ctor_invariant {α : Type} :
    (∀ (arg : CtorArg α) (st : Store α), initStore arg = .ok st →
      ∀ kv ∈ st, kv.2.isTensor = true) ∧
    (∀ (s : Store α) (k tag : String), (dictGet s k).isSome →
      update s k (.nonTensor tag) none = .ok (dictSet s k (.nonTensor tag)) ∧
      read (dictSet s k (.nonTensor tag)) k none = .ok (.nonTensor tag)) := by
  constructor
  · intro arg st h
    cases arg with
    | nonDict t => exact absurd h (by simp [initStore])
    | dict entries => exact initEntries_ok_values_tensor h
  · intro s k tag hk
    obtain ⟨w, hw⟩ := Option.isSome_iff_exists.mp hk
    exact ⟨by simp [update, hw], by simp [read, dictGet_dictSet_self]⟩

theorem C10_witness :
    ((dictGet [("a", PyValue.tensor [(1 : Int)])] "a").isSome) ∧
    (update [("a", PyValue.tensor [(1 : Int)])] "a"
        (.nonTensor "some python int") none
      = .ok (dictSet [("a", PyValue.tensor [(1 : Int)])] "a"
          (.nonTensor "some python int")) ∧
    read (dictSet [("a", PyValue.tensor [(1 : Int)])] "a"
        (.nonTensor "some python int")) "a" none
      = .ok (.nonTensor "some python int")) :=
  ⟨by decide,
    (C10_update_breaks_ctor_invariant).2 _ "a" "some python int" (by decide)⟩

/-- Claim C3, counterexample: with the stored array `[10, 20]`, the
duplicate in-range index list `[0, 0]` and the value `[1, 2]` of the same
length, `update` succeeds (the later write to row 0 wins, storing
`[2, 20]`), but the subsequent `read` at `[0, 0]` returns `[2, 2]`,
not the original value `[1, 2]` — so the round-trip claim fails for index
lists with duplicates. -/
theorem C3_counterexample :
    update [("a", PyValue.tensor [(10 : Int), 20])] "a"
        (.tensor [(1 : Int), 2]) (some [(0 : Int), 0])
      = .ok [("a", PyValue.tensor [(2 : Int), 20])] ∧
    read [("a", PyValue.tensor [(2 : Int), 20])] "a" (some [(0 : Int), 0])
      = .ok (.tensor [(2 : Int), 2]) ∧
    (PyValue.tensor [(2 : Int), 2]) ≠ (PyValue.tensor [(1 : Int), 2]) :=
  ⟨by decide, by decide, by decide⟩

/-- Claim C3 (amended): for every store, key `k` present in the mapping,
index list `i` of in-range indices no two of which address the same row,
and value `v` of the same length as `i` along the row dimension,
`update(k, v, i)` followed by `read(k, i)` returns `v`. -/
theorem C3_roundtrip_distinct {α : Type} (s : Store α) (k : String)
    (rows : List α) (ids : List Int) (vrows : List α)
    (hk : dictGet s k = some (.tensor rows))
    (hin : ∀ i ∈ ids, idxOK rows.length i)
    (hdist : ids.Pairwise (fun a b => effIdx rows.length a ≠ effIdx rows.length b))
    (hlen : ids.length = vrows.length) :
    ∃ s', update s k (.tensor vrows) (some ids) = .ok s' ∧
      read s' k (some ids) = .ok (.tensor vrows) := by
  obtain ⟨rows', hsc, hg⟩ := scatter_then_gather rows vrows hin hdist hlen
  refine ⟨dictSet s k (.tensor rows'), ?_, ?_⟩
  · simp [update, hk, hlen, hsc]
  · simp [read, dictGet_dictSet_self, hg]

theorem C3_witness :
    (dictGet [("a", PyValue.tensor [(10 : Int), 20, 30])] "a"
      = some (.tensor [(10 : Int), 20, 30])) ∧
    (∀ i ∈ [(2 : Int), -3], idxOK 3 i) ∧
    ([(2 : Int), -3].Pairwise (fun a b => effIdx 3 a ≠ effIdx 3 b)) ∧
    ([(2 : Int), -3].length = [(1 : Int), 2].length) ∧
    (∃ s', update [("a", PyValue.tensor [(10 : Int), 20, 30])] "a"
        (.tensor [(1 : Int), 2]) (some [(2 : Int), -3]) = .ok s' ∧
      read s' "a" (some [(2 : Int), -3]) = .ok (.tensor [(1 : Int), 2])) :=
  ⟨by decide, by decide, by decide, by decide,
    C3_roundtrip_distinct _ "a" [(10 : Int), 20, 30] [(2 : Int), -3]
      [(1 : Int), 2] (by decide) (by decide) (by decide) (by decide)⟩

end GraphBolt
